import Mathlib

/-!
Shallow embedding of the client/monitor state machine of the dwm_cpp window
manager, translated from `src/x.hpp` (the current C++ program; `src/dwm.cpp`
is an earlier snapshot of the same code and agrees with it except where a
definition below is explicitly marked as the dwm.cpp variant).

Modelling conventions:
* machine integers (`int`, `uint`) become `Int`/`Nat`; C++ `/` and `%` on
  `int` are `Int.tdiv`/`Int.tmod` (truncation toward zero);
* the `float` quantities (`fMasterFactor`, the size-hint aspect bounds) are
  stored in the source as quotients of integers (`mfact` from config,
  `min_aspect.y / min_aspect.x` from the size hints), so they are embedded as
  exact integer fractions `Frac` with truncating conversion back to `int`;
* X11 side effects (XMoveResizeWindow, border colours, input focus, bar
  drawing) have no effect on the embedded state and are dropped; the
  geometry/flag/collection state they are driven by is kept in full;
* configuration constants come from `src/config.def.hpp`:
  `tags.size() = 9`, `resizehints = 1` (so the size-hint branch of
  `Client::resize` is always live), `lockfullscreen = 1`.
-/

set_option maxRecDepth 4096

namespace DwmCpp

/-- `struct Rect { int x, y, width, height; }` from `src/unnamed/part_001`. -/
structure Rect where
  x : Int
  y : Int
  width : Int
  height : Int
deriving DecidableEq, Repr

/-- An exact integer fraction standing in for a C++ `float` that the source
obtains as a quotient of two integers (`mfact`, the aspect bounds).  The
denominator is kept positive by convention. -/
structure Frac where
  num : Int
  den : Int
deriving DecidableEq, Repr

/-- `f > 0` on the embedded float (positive denominator convention). -/
def Frac.isPos (f : Frac) : Bool := 0 < f.num * f.den

/-- `f < a / b` on embedded floats (cross-multiplication, `b > 0`, `den > 0`). -/
def Frac.ltQuot (f : Frac) (a b : Int) : Bool := f.num * b < a * f.den

/-- `int(v * f + 0.5f)` — C++ truncation toward zero of `v·f + 1/2`. -/
def Frac.mulAddHalfTrunc (f : Frac) (v : Int) : Int :=
  Int.tdiv (2 * v * f.num + f.den) (2 * f.den)

/-- `int(v * f)` — C++ truncation toward zero of `v·f`. -/
def Frac.mulTrunc (f : Frac) (v : Int) : Int :=
  Int.tdiv (v * f.num) f.den

/-- The independent boolean flags of `Client` (`src/x.hpp` lines 355-372). -/
structure Flags where
  isFixed : Bool := false
  isFloating : Bool := false
  isUrgent : Bool := false
  neverFocus : Bool := false
  isFullscreen : Bool := false
  wasPreviouslyFloating : Bool := false
deriving DecidableEq, Repr

/-- Size-hint derived constraints of a `Client` (`fBaseWidth` … `fMaxAspect`),
as set by `Client::updateSizeHintsFromX`.  The aspect bounds are quotients of
protocol integers (see `src/x.hpp` lines 1473-1476). -/
structure SizeHints where
  baseW : Int := 0
  baseH : Int := 0
  incW : Int := 0
  incH : Int := 0
  minW : Int := 0
  minH : Int := 0
  maxW : Int := 0
  maxH : Int := 0
  minAspect : Frac := ⟨0, 1⟩
  maxAspect : Frac := ⟨0, 1⟩
deriving DecidableEq, Repr

/-- The per-window state of `Client` (`src/x.hpp`).  `win` is the X window
handle (identity), `mon` is the owning-monitor back-reference `fMonitor`,
embedded as the owning monitor's stable `fMonitorNumber`. -/
structure Client where
  win : Nat
  size : Rect
  oldSize : Rect
  bw : Int
  oldBw : Int
  flags : Flags := {}
  tags : Nat
  mon : Nat
  hints : SizeHints := {}
deriving DecidableEq, Repr

/-- The module-level X geometry the resize paths read:
`barHeight`, `screenWidth`, `screenHeight`. -/
structure XCtx where
  barHeight : Int
  screenW : Int
  screenH : Int
deriving DecidableEq, Repr

/-- `tags.size()` from `src/config.def.hpp` (nine tags). -/
def tagCount : Nat := 9

/-- `#define TAGMASK ((1 << tags.size()) - 1)` from `src/x.hpp` line 235. -/
def TAGMASK : Nat := (1 <<< tagCount) - 1

/-- `Client::getOuterHeight` — content height plus twice the border width. -/
def Client.getOuterHeight (c : Client) : Int := c.size.height + 2 * c.bw

/-- `Client::getOuterWidth`. -/
def Client.getOuterWidth (c : Client) : Int := c.size.width + 2 * c.bw

/-- `Client::resizeXClient` — saves the old rectangle and installs the new
one (the X configure call itself is a dropped side effect). -/
def Client.resizeXClient (c : Client) (newSize : Rect) : Client :=
  { c with oldSize := c.size, size := newSize }

/-- The geometry computation of `Client::resize(x, y, w, h, interact)` from
`src/x.hpp` lines 920-988: the rectangle that will be compared against the
current one (and installed if different).  `wr` is the owning monitor's
`wRect`.  With `resizehints = 1` in `src/config.def.hpp` the size-hint
branch is unconditionally live, so it is embedded without its (always-true)
guard. -/
def Client.resizeTarget (c : Client) (ctx : XCtx) (wr : Rect)
    (x0 y0 w0 h0 : Int) (interact : Bool) : Rect :=
  -- minimum size requirements
  let width := max 1 w0
  let height := max 1 h0
  -- position clamps (the outer-size terms use the *current* fSize)
  let x := if interact then
      (if x0 > ctx.screenW then ctx.screenW - c.getOuterWidth else x0)
    else
      (if x0 ≥ wr.x + wr.width then wr.x + wr.width - c.getOuterWidth else x0)
  let y := if interact then
      (if y0 > ctx.screenH then ctx.screenH - c.getOuterHeight else y0)
    else
      (if y0 ≥ wr.y + wr.height then wr.y + wr.height - c.getOuterHeight else y0)
  let x := if interact then (if x + width + 2 * c.bw < 0 then 0 else x)
    else (if x + width + 2 * c.bw ≤ wr.x then wr.x else x)
  let y := if interact then (if y + height + 2 * c.bw < 0 then 0 else y)
    else (if y + height + 2 * c.bw ≤ wr.y then wr.y else y)
  let height := max height ctx.barHeight
  let width := max width ctx.barHeight
  -- size-hint branch (always taken: resizehints = 1)
  let isBaseSizeMin :=
    c.hints.baseW == c.hints.minW && c.hints.baseH == c.hints.minH
  let width := if !isBaseSizeMin then width - c.hints.baseW else width
  let height := if !isBaseSizeMin then height - c.hints.baseH else height
  -- adjust for aspect limits
  let wh :=
    if c.hints.minAspect.isPos && c.hints.maxAspect.isPos then
      if c.hints.maxAspect.ltQuot width height then
        (c.hints.maxAspect.mulAddHalfTrunc height, height)
      else if c.hints.minAspect.ltQuot height width then
        (width, c.hints.minAspect.mulAddHalfTrunc width)
      else (width, height)
    else (width, height)
  let width := wh.1
  let height := wh.2
  let width := if isBaseSizeMin then width - c.hints.baseW else width
  let height := if isBaseSizeMin then height - c.hints.baseH else height
  -- align with size increments
  let width := if c.hints.incW ≠ 0 then width - Int.tmod width c.hints.incW else width
  let height := if c.hints.incH ≠ 0 then height - Int.tmod height c.hints.incH else height
  -- restore base dimensions
  let width := max (width + c.hints.baseW) c.hints.minW
  let height := max (height + c.hints.baseH) c.hints.minH
  let width := if c.hints.maxW ≠ 0 then min width c.hints.maxW else width
  let height := if c.hints.maxH ≠ 0 then min height c.hints.maxH else height
  ⟨x, y, width, height⟩

/-- `Client::resize` proper: computes the target rectangle and issues the
configure call only when the geometry actually changes (`src/x.hpp` lines
989-997). -/
def Client.resize (c : Client) (ctx : XCtx) (wr : Rect)
    (x0 y0 w0 h0 : Int) (interact : Bool) : Client :=
  let r := c.resizeTarget ctx wr x0 y0 w0 h0 interact
  -- suppress the redundant X call when the geometry is unchanged
  if r.x ≠ c.size.x ∨ r.y ≠ c.size.y ∨ r.width ≠ c.size.width ∨ r.height ≠ c.size.height then
    c.resizeXClient r
  else c

/-- `Client::setFullscreen` from `src/x.hpp` lines 1165-1186.  `sRect` is the
owning monitor's screen rectangle. -/
def Client.setFullscreen (c : Client) (sRect : Rect) (fullscreen : Bool) : Client :=
  if fullscreen && !c.flags.isFullscreen then
    let fl := { c.flags with
      wasPreviouslyFloating := c.flags.isFloating
      isFullscreen := true
      isFloating := true }
    let c := { c with flags := fl, oldBw := c.bw, bw := 0 }
    c.resizeXClient sRect
  else if !fullscreen && c.flags.isFullscreen then
    let fl := { c.flags with
      isFullscreen := false
      isFloating := c.flags.wasPreviouslyFloating }
    let c := { c with flags := fl, size := c.oldSize, bw := c.oldBw }
    c.resizeXClient c.size
  else c

/-- `Client::setFullscreen` as written in `src/dwm.cpp` lines 691-715: there
the statement `wasPreviouslyFloating = isFloating` is executed *after*
`isFloating = true`, so the saved value is the just-overwritten one. -/
def Client.setFullscreenDwm (c : Client) (sRect : Rect) (fullscreen : Bool) : Client :=
  if fullscreen && !c.flags.isFullscreen then
    let f1 := { c.flags with isFullscreen := true }
    let f2 := { f1 with isFloating := true }
    let f3 := { f2 with wasPreviouslyFloating := f2.isFloating }
    let c := { c with flags := f3, oldBw := c.bw, bw := 0 }
    c.resizeXClient sRect
  else if !fullscreen && c.flags.isFullscreen then
    let fl := { c.flags with
      isFullscreen := false
      isFloating := c.flags.wasPreviouslyFloating }
    let c := { c with flags := fl, size := c.oldSize, bw := c.oldBw }
    c.resizeXClient c.size
  else c

/-- `Client::toggleFloating` from `src/x.hpp` lines 1188-1196 (identical in
`src/dwm.cpp` lines 717-725). -/
def Client.toggleFloating (c : Client) (ctx : XCtx) (wr : Rect) : Client :=
  if c.flags.isFullscreen then c
  else
    let fl := !c.flags.isFloating || c.flags.isFixed
    let c := { c with flags := { c.flags with isFloating := fl } }
    if fl then c.resize ctx wr c.size.x c.size.y c.size.width c.size.height false
    else c

/-! X protocol error codes (from `X.h`) and request codes (from `Xproto.h`)
used by the installed error handler. -/

def BadWindow : Nat := 3
def BadMatch : Nat := 8
def BadDrawable : Nat := 9
def BadAccess : Nat := 10
def X_ConfigureWindow : Nat := 12
def X_GrabButton : Nat := 28
def X_GrabKey : Nat := 33
def X_SetInputFocus : Nat := 42
def X_CopyArea : Nat := 62
def X_PolySegment : Nat := 66
def X_PolyFillRectangle : Nat := 70
def X_PolyText8 : Nat := 74

/-- The condition under which `xerror` (`src/x.hpp` lines 492-507, identical
in `src/dwm.cpp` lines 2200-2215) returns 0 and swallows the error. -/
def xerrorSwallows (requestCode errorCode : Nat) : Bool :=
  errorCode == BadWindow
  || (requestCode == X_SetInputFocus && errorCode == BadMatch)
  || (requestCode == X_PolyText8 && errorCode == BadDrawable)
  || (requestCode == X_PolyFillRectangle && errorCode == BadDrawable)
  || (requestCode == X_PolySegment && errorCode == BadDrawable)
  || (requestCode == X_ConfigureWindow && errorCode == BadMatch)
  || (requestCode == X_GrabButton && errorCode == BadAccess)
  || (requestCode == X_GrabKey && errorCode == BadAccess)
  || (requestCode == X_CopyArea && errorCode == BadDrawable)

/-- What the installed error handler does with a protocol error. -/
inductive XErrorAction where
  | swallow
  | reportAndDelegate
deriving DecidableEq, Repr

/-- `xerror` either returns 0 silently or prints to stderr and calls the
default (Xlib) handler. -/
def xerrorAction (requestCode errorCode : Nat) : XErrorAction :=
  if xerrorSwallows requestCode errorCode then .swallow else .reportAndDelegate

/-- The (request code, error code) pairs the spec names as swallowed, besides
any bad-window error: bad-match, bad-drawable and bad-access each on their
known request codes. -/
def specSwallowedPairs : List (Nat × Nat) :=
  [(X_SetInputFocus, BadMatch), (X_PolyText8, BadDrawable),
   (X_PolyFillRectangle, BadDrawable), (X_PolySegment, BadDrawable),
   (X_ConfigureWindow, BadMatch), (X_GrabButton, BadAccess),
   (X_GrabKey, BadAccess), (X_CopyArea, BadDrawable)]

/-- The per-output state of `Monitor` (`src/x.hpp` lines 415-433).
`clients` embeds the owned insertion-ordered `fClients`; `stack` embeds the
MRU `fStack` as a list of window handles (the C++ `Client*` entries, resolved
through `findClient`); `selected` embeds `fSelected` likewise.
`layoutArrange` records whether `getActiveLayout()->arrange` is non-null. -/
structure Monitor where
  num : Nat
  sRect : Rect
  wRect : Rect
  gap : Int
  mfact : Frac
  nmaster : Int
  tags0 : Nat
  tags1 : Nat
  selTags : Bool := false
  layoutArrange : Bool := true
  layoutSymbol : String := "[]="
  clients : List Client := []
  stack : List Nat := []
  selected : Option Nat := none
deriving DecidableEq, Repr

/-- `Monitor::getActiveTags` — `fTags[fSelectedTags]`. -/
def Monitor.getActiveTags (m : Monitor) : Nat :=
  if m.selTags then m.tags1 else m.tags0

/-- `Monitor::setActiveTags`. -/
def Monitor.setActiveTags (m : Monitor) (t : Nat) : Monitor :=
  if m.selTags then { m with tags1 := t } else { m with tags0 := t }

/-- `Monitor::toggleSelectedTagSet` — `fSelectedTags ^= 1`. -/
def Monitor.toggleSelectedTagSet (m : Monitor) : Monitor :=
  { m with selTags := !m.selTags }

/-- `Client::isVisible` — `fTags & fMonitor->getActiveTags()`, evaluated
against the monitor that holds the client. -/
def Monitor.visibleB (m : Monitor) (c : Client) : Bool :=
  c.tags &&& m.getActiveTags != 0

/-- Resolves a window handle inside `fClients` (a C++ `Client*`). -/
def Monitor.findClient (m : Monitor) (w : Nat) : Option Client :=
  m.clients.find? (fun c => c.win == w)

/-- Whether the stack entry `w` refers to a visible client of `m`. -/
def Monitor.stackEntryVisible (m : Monitor) (w : Nat) : Bool :=
  ((m.findClient w).map m.visibleB).getD false

/-- `Monitor::getTiledClients` — the not-floating, visible subset of the
client collection, in insertion order. -/
def Monitor.tiledClients (m : Monitor) : List Client :=
  m.clients.filter (fun c => !c.flags.isFloating && m.visibleB c)

/-- `Monitor::attach` (`src/x.hpp` lines 1572-1578): inserts the client at
the front of both collections and sets its owning-monitor back-reference. -/
def Monitor.attach (m : Monitor) (c : Client) : Monitor :=
  let c := { c with mon := m.num }
  { m with clients := c :: m.clients, stack := c.win :: m.stack }

/-- `Monitor::detach` (`src/x.hpp` lines 1580-1593): removes the client from
both collections; if it was selected, selection falls back to the first
visible client of the (already shrunk) stack, else to null. -/
def Monitor.detach (m : Monitor) (w : Nat) : Monitor :=
  let m' := { m with
    clients := m.clients.eraseP (fun c => c.win == w)
    stack := m.stack.erase w }
  if m.selected = some w then
    { m' with selected := m'.stack.find? m'.stackEntryVisible }
  else m'

/-- `Monitor::transferAllClients` (`src/x.hpp` lines 1562-1570): appends both
of the source's collections onto the target's and clears the source.  Note
that the migrated clients' `fMonitor` back-references are left untouched. -/
def Monitor.transferAllClients (src tgt : Monitor) : Monitor × Monitor :=
  let tgt := { tgt with
    stack := tgt.stack ++ src.stack
    clients := tgt.clients ++ src.clients }
  let src := { src with stack := [], clients := [], selected := none }
  (src, tgt)

/-- The urgency-clearing step of `Monitor::focus`, applied to the client
that is being focused. -/
def clearUrgentIf (w : Nat) (c : Client) : Client :=
  if c.win == w && c.flags.isUrgent then
    { c with flags := { c.flags with isUrgent := false } }
  else c

/-- The tail of `Monitor::focus` once a client `w` has been settled on:
clear its urgency flag, shuffle it to the front of the stack (MRU
promotion), and select it. -/
def Monitor.focusApply (m : Monitor) (w : Nat) : Monitor :=
  { m with
    clients := m.clients.map (clearUrgentIf w)
    stack := w :: m.stack.erase w
    selected := some w }

/-- `Monitor::focus` (`src/x.hpp` lines 1617-1643).  If the requested client
is null or invisible, the first visible stack entry is tried; if none exists
the requested client (possibly null, possibly invisible) is kept.  A selected
client gets its urgency cleared and is shuffled to the front of the stack. -/
def Monitor.focusOp (m : Monitor) (req : Option Nat) : Monitor :=
  match
    (if req.isNone || !(((req.bind m.findClient).map m.visibleB).getD false) then
      match m.stack.find? m.stackEntryVisible with
      | some s => some s
      | none => req
    else req) with
  | some w => m.focusApply w
  | none => { m with selected := none }

/-- `Monitor::unmanage` (`src/x.hpp` lines 1595-1605) restricted to the
embedded state: detach, then re-focus (the X teardown is a side effect). -/
def Monitor.unmanage (m : Monitor) (w : Nat) : Monitor :=
  (m.detach w).focusOp none

/-- The backward loop of `shiftFocusThroughStack`: breaks at the selection
once a candidate exists, otherwise keeps the last visible client seen. -/
def backScan (vis : Client → Bool) (sel : Nat) :
    List Client → Option Client → Option Client
  | [], acc => acc
  | cl :: rest, acc =>
    if cl.win == sel && acc.isSome then acc
    else backScan vis sel rest (if vis cl then some cl else acc)

/-- `Monitor::shiftFocusThroughStack` (`src/x.hpp` lines 1645-1679), with
`lockfullscreen = 1` from `src/config.def.hpp` folded in.  The forward scan
walks the client collection from just past the selection, wrapping to the
front; the backward scan remembers the last visible client seen before the
selection, scanning past it when nothing preceded.  A found client is
focused (the X restack is a side effect). -/
def Monitor.shiftFocusThroughStack (m : Monitor) (direction : Int) : Monitor :=
  match m.selected with
  | none => m
  | some sel =>
    if ((m.findClient sel).map (fun c => c.flags.isFullscreen)).getD false then m
    else
      let c : Option Client :=
        if direction > 0 then
          let afterSel := (m.clients.dropWhile (fun c => c.win != sel)).drop 1
          match afterSel.find? m.visibleB with
          | some c => some c
          | none => m.clients.find? m.visibleB
        else
          backScan m.visibleB sel m.clients none
      match c with
      | some c => m.focusOp (some c.win)
      | none => m

/-- `Monitor::zoomClientToMaster` (`src/x.hpp` lines 1681-1700): a no-op for
floating clients or arrange-less layouts; shuffles the target client to the
front of the *client* collection and focuses it. -/
def Monitor.zoomClientToMaster (m : Monitor) (w : Nat) : Monitor :=
  match m.findClient w with
  | none => m
  | some cl =>
    if !m.layoutArrange || cl.flags.isFloating then m
    else
      match
        (if (m.tiledClients.head?.map (fun c => c.win)) = some w then
          (m.tiledClients.dropWhile (fun c => c.win != w)).head?
        else some cl) with
      | none => m
      | some t =>
        ({ m with
          clients := t :: m.clients.eraseP (fun c => c.win == t.win) }).focusOp
          (some t.win)

/-- `manageClient` (`src/x.hpp` lines 785-797) in the case where the new
client's monitor is the selected monitor: attach, select the new client,
then run the no-argument focus pass. -/
def Monitor.manageOnSelf (m : Monitor) (c : Client) : Monitor :=
  let m := m.attach c
  ({ m with selected := some c.win }).focusOp none

/-- Overwrites the tag mask of the client `w` inside the collection
(the C++ `fSelected->fTags = …` pointer write). -/
def Monitor.setClientTags (m : Monitor) (w : Nat) (t : Nat) : Monitor :=
  { m with clients := m.clients.map (fun c => if c.win == w then { c with tags := t } else c) }

/-- `tag(tag)` (`src/x.hpp` lines 2182-2188) on the selected monitor:
stores `tag & TAGMASK` on the selected client when nonzero, then refocuses
(the re-arrange touches only geometry). -/
def Monitor.tagOp (m : Monitor) (t : Nat) : Monitor :=
  match m.selected with
  | none => m
  | some sel =>
    if t &&& TAGMASK ≠ 0 then
      ((m.setClientTags sel (t &&& TAGMASK)).focusOp none)
    else m

/-- `toggletag(tag)` (`src/x.hpp` lines 2209-2219). -/
def Monitor.toggletagOp (m : Monitor) (t : Nat) : Monitor :=
  match m.selected.bind m.findClient with
  | none => m
  | some cl =>
    let newtags := cl.tags ^^^ (t &&& TAGMASK)
    if newtags ≠ 0 then
      ((m.setClientTags cl.win newtags).focusOp none)
    else m

/-- `toggleview(tag)` (`src/x.hpp` lines 2221-2228). -/
def Monitor.toggleviewOp (m : Monitor) (t : Nat) : Monitor :=
  let newtagset := m.getActiveTags ^^^ (t &&& TAGMASK)
  if newtagset ≠ 0 then
    ((m.setActiveTags newtagset).focusOp none)
  else m

/-- `view(tag)` (`src/x.hpp` lines 2230-2238). -/
def Monitor.viewOp (m : Monitor) (t : Nat) : Monitor :=
  if t &&& TAGMASK = m.getActiveTags then m
  else
    let m := m.toggleSelectedTagSet
    let m := if t &&& TAGMASK ≠ 0 then m.setActiveTags (t &&& TAGMASK) else m
    m.focusOp none

/-- `sendClientToMonitor` (`src/x.hpp` lines 806-814): detach from the source,
attach to the target, overwrite the client's tags with the target's active
tag set, then refocus.  Returns (source, target). -/
def sendClientToMonitor (src tgt : Monitor) (w : Nat) : Monitor × Monitor :=
  if src.num = tgt.num then (src, tgt)
  else
    match src.findClient w with
    | none => (src, tgt)
    | some cl =>
      (src.detach w,
       (tgt.attach cl).setClientTags w (tgt.attach cl).getActiveTags)

/-- The tag computation of `Client::applyCustomRules` (`src/x.hpp` lines
1345-1378): tags accumulate by OR over the matching rules (each rule's raw
`tags` field), and the final store is the accumulated mask intersected with
`TAGMASK` when that is nonzero, else the target monitor's active tag set. -/
def applyCustomRulesTags (ruleTagMasks : List Nat) (monitorActiveTags : Nat) : Nat :=
  let acc := ruleTagMasks.foldl (fun t r => t ||| r) 0
  if acc &&& TAGMASK ≠ 0 then acc &&& TAGMASK else monitorActiveTags

/-- The per-client body of `Monitor::monocle` (`src/x.hpp` lines 1824-1835):
tiled clients are resized to the usable rectangle shrunk by their own border
width, others are untouched. -/
def Monitor.monocleResizeOne (m : Monitor) (ctx : XCtx) (c : Client) : Client :=
  if !c.flags.isFloating && m.visibleB c then
    c.resize ctx m.wRect m.wRect.x m.wRect.y
      (m.wRect.width - 2 * c.bw) (m.wRect.height - 2 * c.bw) false
  else c

/-- `Monitor::monocle`: counts the *visible* clients (floating ones
included), overwrites the layout symbol with that count in brackets when it
is positive, and resizes every tiled client. -/
def Monitor.monocle (m : Monitor) (ctx : XCtx) : Monitor :=
  let n := (m.clients.filter (fun c => m.visibleB c)).length
  let sym := if n > 0 then "[" ++ toString n ++ "]" else m.layoutSymbol
  { m with
    layoutSymbol := sym
    clients := m.clients.map (m.monocleResizeOne ctx) }

/-- The `mw` computation at the head of `Monitor::tile` (`src/x.hpp` lines
1843-1847); `n` is the tiled-client count.  `int = int * float` truncates. -/
def Monitor.tileMasterWidth (m : Monitor) (n : Int) : Int :=
  if n > m.nmaster then
    (if m.nmaster ≠ 0 then m.mfact.mulTrunc m.wRect.width else 0)
  else m.wRect.width - m.gap

/-- One recorded step of the tile loop: which branch ran (`isMaster`), the
loop index `i`, the running offset (`my` resp. `ty`) read by the step, the
computed slot height `h`, the rectangle passed to `resize`, and the client
as left behind by `resize`. -/
structure Placement where
  isMaster : Bool
  idx : Nat
  offBefore : Int
  slotH : Int
  req : Rect
  after : Client
deriving DecidableEq, Repr

/-- The loop of `Monitor::tile` (`src/x.hpp` lines 1849-1869) over the tiled
clients, recording one `Placement` per client.  `n` is the total tiled
count, `i`/`my`/`ty` are the loop state. -/
def tileLoop (wr : Rect) (gap mw nm n : Int) (ctx : XCtx) :
    Nat → Int → Int → List Client → List Placement
  | _, _, _, [] => []
  | i, my, ty, c :: rest =>
    if (i : Int) < nm then
      let h := Int.tdiv (wr.height - my) (min n nm - (i : Int)) - gap
      let req : Rect := ⟨wr.x + gap, wr.y + my, mw - 2 * c.bw - gap, h - 2 * c.bw⟩
      let c' := c.resize ctx wr req.x req.y req.width req.height false
      let my' := if my + c'.getOuterHeight + gap < wr.height
        then my + c'.getOuterHeight + gap else my
      ⟨true, i, my, h, req, c'⟩ :: tileLoop wr gap mw nm n ctx (i + 1) my' ty rest
    else
      let h := Int.tdiv (wr.height - ty) (n - (i : Int)) - gap
      let req : Rect := ⟨wr.x + mw + gap, wr.y + ty,
        wr.width - mw - 2 * c.bw - 2 * gap, h - 2 * c.bw⟩
      let c' := c.resize ctx wr req.x req.y req.width req.height false
      let ty' := if ty + c'.getOuterHeight + gap < wr.height
        then ty + c'.getOuterHeight + gap else ty
      ⟨false, i, ty, h, req, c'⟩ :: tileLoop wr gap mw nm n ctx (i + 1) my ty' rest

/-- Writes the post-resize tiled clients back into the client collection in
order (the C++ loop mutates them through pointers, leaving positions and all
other clients untouched). -/
def mergeTiled (isTiled : Client → Bool) : List Client → List Client → List Client
  | [], _ => []
  | c :: rest, repl =>
    if isTiled c then
      match repl with
      | r :: rs => r :: mergeTiled isTiled rest rs
      | [] => c :: mergeTiled isTiled rest []
    else c :: mergeTiled isTiled rest repl

/-- The full placement trace of `Monitor::tile`: the loop is entered with
`i = 0` and both running offsets at `fGapSize`. -/
def Monitor.tilePlacements (m : Monitor) (ctx : XCtx) : List Placement :=
  tileLoop m.wRect m.gap (m.tileMasterWidth (m.tiledClients.length : Int))
    m.nmaster (m.tiledClients.length : Int) ctx 0 m.gap m.gap m.tiledClients

/-- `Monitor::tile` (`src/x.hpp` lines 1837-1870). -/
def Monitor.tile (m : Monitor) (ctx : XCtx) : Monitor :=
  if m.tiledClients.length = 0 then m
  else
    let merged := mergeTiled (fun c => !c.flags.isFloating && m.visibleB c)
      m.clients ((m.tilePlacements ctx).map (fun p => p.after))
    { m with clients := merged }

/-- The running-offset recurrence of the tile loop: within one column the
offset advances by the placed client's outer height plus one gap unless that
would overflow the usable height; entering the stack column resets to the
untouched `ty` (= the initial gap). -/
def tileOffsetStep (wr : Rect) (gap : Int) (p q : Placement) : Prop :=
  q.offBefore =
    if q.isMaster == p.isMaster then
      (if p.offBefore + p.after.getOuterHeight + gap < wr.height
       then p.offBefore + p.after.getOuterHeight + gap
       else p.offBefore)
    else gap

/-- One pass of the monitor-removal loop of `updateDisplayGeometry`
(`src/x.hpp` lines 716-723): the last monitor transfers all of its clients
onto the first one and is destroyed. -/
def popExcessMonitor (mons : List Monitor) : List Monitor :=
  match mons with
  | [] => []
  | [m] => [m]
  | first :: rest =>
    match rest.getLast? with
    | none => [first]
    | some last =>
      let (_, first') := Monitor.transferAllClients last first
      first' :: rest.dropLast

/-- The owning-monitor back-reference invariant: every client sits in the
collection of the monitor its `fMonitor` reference (embedded as the monitor
number) names. -/
def backrefInv (mons : List Monitor) : Prop :=
  ∀ m ∈ mons, ∀ c ∈ m.clients, c.mon = m.num

instance (mons : List Monitor) : Decidable (backrefInv mons) := by
  unfold backrefInv; infer_instance

/-! ### Concrete states used by the closed-form theorems -/

/-- A bar height / screen geometry as `setup` would produce. -/
def ctx0 : XCtx := ⟨20, 1920, 1080⟩

/-- A default-config monitor (gap 5, `nmaster` 1, `mfact` 0.55 = 11/20,
tag 1 viewed) with no clients. -/
def baseMon : Monitor :=
  { num := 0, sRect := ⟨0, 0, 1000, 620⟩, wRect := ⟨0, 20, 1000, 600⟩,
    gap := 5, mfact := ⟨11, 20⟩, nmaster := 1, tags0 := 1, tags1 := 1 }

/-- A plain tiled client on tag 1. -/
def mkTiledClient (w : Nat) (tags : Nat) : Client :=
  { win := w, size := ⟨10, 30, 300, 200⟩, oldSize := ⟨0, 0, 1, 1⟩,
    bw := 1, oldBw := 1, tags := tags, mon := 0 }

/-- C7 fixture: a non-floating, non-fullscreen client. -/
def c7client : Client :=
  { win := 1, size := ⟨10, 30, 300, 200⟩, oldSize := ⟨0, 0, 1, 1⟩,
    bw := 2, oldBw := 0, tags := 1, mon := 0 }

/-- C5 fixture: one *floating* visible client, no tiled client. -/
def mon5 : Monitor :=
  { baseMon with
    clients := [{ (mkTiledClient 3 1) with flags := { isFloating := true } }]
    stack := [3], selected := some 3 }

/-- C4 fixture: `masterCount = 0` with a single tiled client. -/
def mon4 : Monitor :=
  { baseMon with nmaster := 0, clients := [mkTiledClient 4 1], stack := [4] }

/-- C2 fixture: a single client on tag 2 while tag 1 is viewed (invisible),
present in both collections, nothing selected. -/
def mon2 : Monitor :=
  { baseMon with clients := [mkTiledClient 9 2], stack := [9] }

/-- C3 fixtures: monitor 0 empty, monitor 1 owning client 37. -/
def mon3a : Monitor := baseMon

/-- Monitor 1 of the C3 fixture. -/
def mon3b : Monitor :=
  { baseMon with
    num := 1
    clients := [{ (mkTiledClient 37 1) with mon := 1 }]
    stack := [37] }

/-- C6 fixture: four clients in insertion order, only the ones at index 0
and 3 visible (tag 1 viewed), the one at index 0 selected. -/
def mon6 : Monitor :=
  { baseMon with
    clients := [mkTiledClient 10 1, mkTiledClient 11 2,
                mkTiledClient 12 2, mkTiledClient 13 1]
    stack := [10, 11, 12, 13], selected := some 10 }

/-- The selection-coherence invariant of the spec: the selected client, when
non-null, sits in both collections and is visible on its monitor. -/
def selectionCoherent (m : Monitor) : Prop :=
  match m.selected with
  | none => True
  | some s => (∃ c ∈ m.clients, c.win = s ∧ m.visibleB c = true) ∧ s ∈ m.stack

instance (m : Monitor) : Decidable (selectionCoherent m) := by
  unfold selectionCoherent; exact match m.selected with
  | none => inferInstance
  | some _ => inferInstance

/-- The stack-is-a-permutation-of-the-clients invariant. -/
def stackPerm (m : Monitor) : Prop :=
  m.stack.Perm (m.clients.map (fun c => c.win))

/-- A tag value that has been masked to the valid range and is non-empty. -/
def tagsMasked (v : Nat) : Prop := v &&& TAGMASK = v ∧ v ≠ 0

/-- The tag invariant of a monitor: all stored tag bitmasks (every client's
and both tag-set slots) are masked and nonzero. -/
def monTagInv (m : Monitor) : Prop :=
  (∀ c ∈ m.clients, tagsMasked c.tags) ∧ tagsMasked m.tags0 ∧ tagsMasked m.tags1

instance (v : Nat) : Decidable (tagsMasked v) := by
  unfold tagsMasked; infer_instance

instance (m : Monitor) : Decidable (monTagInv m) := by
  unfold monTagInv; infer_instance

instance (m : Monitor) : Decidable (stackPerm m) := by
  unfold stackPerm; exact List.decidablePerm _ _

/-! ### Theorems -/

/-- The boolean swallow condition spelled out as a disjunction, in source
order. -/
theorem xerrorSwallows_cases (r e : Nat) : xerrorSwallows r e = true ↔
    (e = BadWindow ∨ (r = X_SetInputFocus ∧ e = BadMatch)
     ∨ (r = X_PolyText8 ∧ e = BadDrawable)
     ∨ (r = X_PolyFillRectangle ∧ e = BadDrawable)
     ∨ (r = X_PolySegment ∧ e = BadDrawable)
     ∨ (r = X_ConfigureWindow ∧ e = BadMatch)
     ∨ (r = X_GrabButton ∧ e = BadAccess)
     ∨ (r = X_GrabKey ∧ e = BadAccess)
     ∨ (r = X_CopyArea ∧ e = BadDrawable)) := by
  simp only [xerrorSwallows, Bool.or_eq_true, Bool.and_eq_true, beq_iff_eq, or_assoc]

/-- Membership in the spec's pair list, spelled out. -/
theorem specSwallowedPairs_mem (r e : Nat) : (r, e) ∈ specSwallowedPairs ↔
    ((r = X_SetInputFocus ∧ e = BadMatch)
     ∨ (r = X_PolyText8 ∧ e = BadDrawable)
     ∨ (r = X_PolyFillRectangle ∧ e = BadDrawable)
     ∨ (r = X_PolySegment ∧ e = BadDrawable)
     ∨ (r = X_ConfigureWindow ∧ e = BadMatch)
     ∨ (r = X_GrabButton ∧ e = BadAccess)
     ∨ (r = X_GrabKey ∧ e = BadAccess)
     ∨ (r = X_CopyArea ∧ e = BadDrawable)) := by
  simp only [specSwallowedPairs, List.mem_cons, List.not_mem_nil, or_false, Prod.mk.injEq]

/-- Claim C9: the installed error handler swallows a protocol error (returns
0, printing nothing) exactly when it is bad-window or one of the known
(request code, error code) pairs for bad-match, bad-drawable or bad-access;
every other error is reported and delegated to the default handler. -/
theorem xerror_swallow_classification (requestCode errorCode : Nat) :
    (xerrorAction requestCode errorCode = XErrorAction.swallow ↔
      errorCode = BadWindow ∨ (requestCode, errorCode) ∈ specSwallowedPairs) ∧
    (xerrorAction requestCode errorCode = XErrorAction.reportAndDelegate ↔
      ¬(errorCode = BadWindow ∨ (requestCode, errorCode) ∈ specSwallowedPairs)) := by
  have h : xerrorSwallows requestCode errorCode = true ↔
      errorCode = BadWindow ∨ (requestCode, errorCode) ∈ specSwallowedPairs := by
    rw [xerrorSwallows_cases, specSwallowedPairs_mem]
  by_cases hs : xerrorSwallows requestCode errorCode = true
  · simp [xerrorAction, hs, h.mp hs]
  · have hr : ¬(errorCode = BadWindow ∨
        (requestCode, errorCode) ∈ specSwallowedPairs) :=
      fun hc => hs (h.mpr hc)
    rw [Bool.not_eq_true] at hs
    simp [xerrorAction, hs, hr]

/-- `Client::resize` never touches the flag set. -/
theorem Client.resize_flags (c : Client) (ctx : XCtx) (wr : Rect)
    (x y w h : Int) (interact : Bool) :
    (c.resize ctx wr x y w h interact).flags = c.flags := by
  unfold Client.resize Client.resizeXClient
  dsimp only
  split <;> rfl

/-- `Client::resize` never touches the window handle. -/
theorem Client.resize_win (c : Client) (ctx : XCtx) (wr : Rect)
    (x y w h : Int) (interact : Bool) :
    (c.resize ctx wr x y w h interact).win = c.win := by
  unfold Client.resize Client.resizeXClient
  dsimp only
  split <;> rfl

/-- On a non-fullscreen client, `toggleFloating` computes the new floating
flag as `!isFloating || isFixed` and changes no other flag. -/
theorem toggleFloating_flags (c : Client) (ctx : XCtx) (wr : Rect)
    (h : c.flags.isFullscreen = false) :
    (c.toggleFloating ctx wr).flags =
      { c.flags with isFloating := !c.flags.isFloating || c.flags.isFixed } := by
  simp only [Client.toggleFloating, h, Bool.false_eq_true, if_false]
  split
  · rw [Client.resize_flags]
  · rfl

/-- Claim C10: `toggleFloating` leaves every field of a fullscreen client
unchanged, and a fixed-size client is floating after any `toggleFloating`
call (granted the reachable-state fact that fullscreen clients are floating,
which `setFullscreen` establishes on entry). -/
theorem toggleFloating_fullscreen_noop_and_fixed_floats
    (c : Client) (ctx : XCtx) (wr : Rect) :
    (c.flags.isFullscreen = true → c.toggleFloating ctx wr = c) ∧
    (c.flags.isFixed = true →
      (c.flags.isFullscreen = true → c.flags.isFloating = true) →
      (c.toggleFloating ctx wr).flags.isFloating = true) := by
  constructor
  · intro h; unfold Client.toggleFloating; simp [h]
  · intro hfix hreach
    by_cases hfs : c.flags.isFullscreen = true
    · have hnoop : c.toggleFloating ctx wr = c := by
        unfold Client.toggleFloating; simp [hfs]
      rw [hnoop]; exact hreach hfs
    · rw [Bool.not_eq_true] at hfs
      rw [toggleFloating_flags c ctx wr hfs]
      simp [hfix]

/-- Witness for C10 at a fixed, non-fullscreen client. -/
theorem toggleFloating_witness :
    ((⟨5, ⟨0, 0, 50, 50⟩, ⟨0, 0, 1, 1⟩, 1, 1, { isFixed := true }, 1, 0, {}⟩ :
      Client).toggleFloating ctx0 baseMon.wRect).flags.isFloating = true :=
  (toggleFloating_fullscreen_noop_and_fixed_floats _ ctx0 baseMon.wRect).2
    (by decide) (by decide)

/-- The `src/x.hpp` fullscreen round trip: entering and then leaving
fullscreen restores the rectangle, the border width and the floating flag. -/
theorem setFullscreen_roundtrip_x (c : Client) (sR : Rect)
    (h : c.flags.isFullscreen = false) :
    ((c.setFullscreen sR true).setFullscreen sR false).size = c.size ∧
    ((c.setFullscreen sR true).setFullscreen sR false).bw = c.bw ∧
    ((c.setFullscreen sR true).setFullscreen sR false).flags.isFloating
      = c.flags.isFloating := by
  unfold Client.setFullscreen Client.resizeXClient
  simp [h]

/-- Claim C7 (against `src/dwm.cpp`): on the concrete non-floating client
`c7client`, the dwm.cpp `setFullscreen` round trip restores the rectangle
and the border width but leaves the client *floating* — the pre-fullscreen
floating flag is not restored, because `wasPreviouslyFloating` is saved
after `isFloating` has already been overwritten with `true`. -/
theorem setFullscreenDwm_roundtrip_eval :
    c7client.flags.isFloating = false ∧
    ((c7client.setFullscreenDwm ⟨0, 0, 1000, 620⟩ true).setFullscreenDwm
        ⟨0, 0, 1000, 620⟩ false).flags.isFloating = true ∧
    ((c7client.setFullscreenDwm ⟨0, 0, 1000, 620⟩ true).setFullscreenDwm
        ⟨0, 0, 1000, 620⟩ false).size = c7client.size ∧
    ((c7client.setFullscreenDwm ⟨0, 0, 1000, 620⟩ true).setFullscreenDwm
        ⟨0, 0, 1000, 620⟩ false).bw = c7client.bw := by
  decide

/-- Claim C3: after the monitor-removal pass of `updateDisplayGeometry`
migrates client 37 from (destroyed) monitor 1 onto monitor 0, the client
sits in monitor 0's collections but its owning-monitor back-reference still
names monitor 1 — `transferAllClients` never rewrites `fMonitor`. -/
theorem transferAllClients_stale_backref_eval :
    backrefInv [mon3a, mon3b] ∧
    (popExcessMonitor [mon3a, mon3b]).length = 1 ∧
    ((popExcessMonitor [mon3a, mon3b]).head?.map
      (fun m => m.clients.map (fun c => c.win))) = some [37] ∧
    ((popExcessMonitor [mon3a, mon3b]).head?.map
      (fun m => m.clients.map (fun c => c.mon))) = some [1] ∧
    ¬ backrefInv (popExcessMonitor [mon3a, mon3b]) := by
  decide

/-- Counterexample to claim C5 as stated: on `mon5` (one floating visible
client, no tiled client) monocle still overwrites the layout symbol, with
a count that includes the floating client. -/
theorem monocle_symbol_counterexample :
    mon5.tiledClients = [] ∧
    mon5.layoutSymbol = "[]=" ∧
    (mon5.monocle ctx0).layoutSymbol = "[1]" := by
  decide

/-- Counterexample to claim C2 as stated: focusing the invisible client 9 on
`mon2`, whose stack holds no visible client, leaves client 9 selected even
though it is not visible. -/
theorem focus_invisible_counterexample :
    (mon2.focusOp (some 9)).selected = some 9 ∧
    ¬ selectionCoherent (mon2.focusOp (some 9)) := by
  decide

/-- Counterexample to claim C4 as stated: with `masterCount = 0` and one
tiled client (`mon4`), the master-column width is 0, not
`usableWidth − gap = 995` as the claim's else-branch demands, and the lone
stack client is placed at `x = wRect.x + 0 + gap = 5`. -/
theorem tile_masterwidth_counterexample :
    mon4.tiledClients.length = 1 ∧
    mon4.tileMasterWidth 1 = 0 ∧
    mon4.wRect.width - mon4.gap = 995 ∧
    ((tileLoop mon4.wRect mon4.gap (mon4.tileMasterWidth 1) mon4.nmaster 1
        ctx0 0 mon4.gap mon4.gap mon4.tiledClients).map
      (fun p => p.req.x)) = [5] := by
  decide

/-- `clearUrgentIf` changes neither the window handle nor the tags. -/
theorem clearUrgentIf_win_tags (w : Nat) (c : Client) :
    (clearUrgentIf w c).win = c.win ∧ (clearUrgentIf w c).tags = c.tags := by
  unfold clearUrgentIf
  split <;> exact ⟨rfl, rfl⟩

/-- Decoding a true `stackEntryVisible`: a client with that window is in the
collection and visible. -/
theorem stackEntryVisible_spec (m : Monitor) (s : Nat)
    (h : m.stackEntryVisible s = true) :
    ∃ c, m.findClient s = some c ∧ m.visibleB c = true := by
  unfold Monitor.stackEntryVisible at h
  cases hf : m.findClient s with
  | none => rw [hf] at h; simp at h
  | some c => rw [hf] at h; simp at h; exact ⟨c, rfl, h⟩

/-- Focusing a window that resolves to a visible client keeps the selection
coherent. -/
theorem focusApply_coherent (m : Monitor) (w : Nat) (c : Client)
    (hc : m.findClient w = some c) (hv : m.visibleB c = true) :
    selectionCoherent (m.focusApply w) := by
  have hmem : c ∈ m.clients := List.mem_of_find?_eq_some hc
  have hwin : c.win = w := by
    have := List.find?_some hc
    simpa using this
  show (∃ c' ∈ (m.focusApply w).clients,
    c'.win = w ∧ (m.focusApply w).visibleB c' = true) ∧ w ∈ (m.focusApply w).stack
  refine ⟨⟨clearUrgentIf w c, ?_, ?_, ?_⟩, ?_⟩
  · exact List.mem_map_of_mem _ hmem
  · rw [(clearUrgentIf_win_tags w c).1, hwin]
  · show Monitor.visibleB _ _ = true
    unfold Monitor.visibleB
    rw [(clearUrgentIf_win_tags w c).2]
    exact hv
  · exact List.mem_cons_self w _

/-- `Monitor::focus` keeps the selection coherent whenever the requested
client is null, or resolves to a visible client, or some visible client sits
in the stack (the fallback source). -/
theorem focusOp_coherent (m : Monitor) (req : Option Nat)
    (h : ∀ w, req = some w →
      ((m.findClient w).map m.visibleB).getD false = true ∨
      ∃ s ∈ m.stack, m.stackEntryVisible s = true) :
    selectionCoherent (m.focusOp req) := by
  unfold Monitor.focusOp
  cases hreq : req with
  | none =>
    simp only [Option.isNone_none, Bool.true_or]
    cases hfind : m.stack.find? m.stackEntryVisible with
    | none =>
      show selectionCoherent { m with selected := none }
      trivial
    | some s =>
      obtain ⟨c, hc, hv⟩ := stackEntryVisible_spec m s (List.find?_some hfind)
      exact focusApply_coherent m s c hc hv
  | some w =>
    have hbind : ((some w : Option Nat).bind m.findClient) = m.findClient w := rfl
    cases hvb : ((m.findClient w).map m.visibleB).getD false with
    | true =>
      have hcond : ((some w : Option Nat).isNone
          || !(((some w : Option Nat).bind m.findClient).map m.visibleB).getD false)
          = false := by
        rw [hbind, hvb]; rfl
      rw [hcond]
      simp only [Bool.false_eq_true, if_false]
      obtain ⟨c, hc, hcv⟩ : ∃ c, m.findClient w = some c ∧ m.visibleB c = true := by
        cases hf : m.findClient w with
        | none => rw [hf] at hvb; simp at hvb
        | some c => rw [hf] at hvb; simp at hvb; exact ⟨c, rfl, hvb⟩
      exact focusApply_coherent m w c hc hcv
    | false =>
      have hcond : ((some w : Option Nat).isNone
          || !(((some w : Option Nat).bind m.findClient).map m.visibleB).getD false)
          = true := by
        rw [hbind, hvb]; rfl
      rw [hcond]
      simp only [if_true]
      cases hfind : m.stack.find? m.stackEntryVisible with
      | some s =>
        obtain ⟨c, hc, hv⟩ := stackEntryVisible_spec m s (List.find?_some hfind)
        exact focusApply_coherent m s c hc hv
      | none =>
        rcases h w hreq with hvis | ⟨s, hs, hsv⟩
        · rw [hvb] at hvis; cases hvis
        · exact absurd hsv (by simpa using List.find?_eq_none.mp hfind s hs)

/-- `focus(null)` (the fallback pass every tag/view operation ends with)
always leaves a coherent selection. -/
theorem focusOp_none_coherent (m : Monitor) :
    selectionCoherent (m.focusOp none) :=
  focusOp_coherent m none (fun _ hw => by cases hw)

/-- `view` keeps the selection coherent. -/
theorem viewOp_coherent (m : Monitor) (t : Nat)
    (hm : selectionCoherent m) : selectionCoherent (m.viewOp t) := by
  unfold Monitor.viewOp
  split
  · exact hm
  · exact focusOp_none_coherent _

/-- `toggleview` keeps the selection coherent. -/
theorem toggleviewOp_coherent (m : Monitor) (t : Nat)
    (hm : selectionCoherent m) : selectionCoherent (m.toggleviewOp t) := by
  unfold Monitor.toggleviewOp
  dsimp only
  split
  · exact focusOp_none_coherent _
  · exact hm

/-- `tag` keeps the selection coherent. -/
theorem tagOp_coherent (m : Monitor) (t : Nat)
    (hm : selectionCoherent m) : selectionCoherent (m.tagOp t) := by
  unfold Monitor.tagOp
  split
  · exact hm
  · split
    · exact focusOp_none_coherent _
    · exact hm

/-- `toggletag` keeps the selection coherent. -/
theorem toggletagOp_coherent (m : Monitor) (t : Nat)
    (hm : selectionCoherent m) : selectionCoherent (m.toggletagOp t) := by
  unfold Monitor.toggletagOp
  split
  · exact hm
  · dsimp only
    split
    · exact focusOp_none_coherent _
    · exact hm

/-- Managing a new client on the selected monitor keeps the selection
coherent (the closing `focus()` pass repairs it). -/
theorem manageOnSelf_coherent (m : Monitor) (c : Client) :
    selectionCoherent (m.manageOnSelf c) := by
  unfold Monitor.manageOnSelf
  exact focusOp_none_coherent _

/-- Amended claim C2: the visibility-selection invariant holds after
`focus(null)`, after `view`/`toggleview`/`tag`/`toggletag` (which end in a
`focus(null)` pass or leave the state unchanged), and after managing a new
client on the selected monitor; for `focus(c)` with an explicit client it
holds provided `c` resolves to a visible client or some visible client sits
in the stack — if `focus` is invoked on an invisible client while no visible
client is in the stack, the invisible client itself stays selected
(`focus_invisible_counterexample`). -/
theorem selection_visibility_amended :
    (∀ m : Monitor, selectionCoherent (m.focusOp none)) ∧
    (∀ (m : Monitor) (w : Nat),
      (((m.findClient w).map m.visibleB).getD false = true ∨
        ∃ s ∈ m.stack, m.stackEntryVisible s = true) →
      selectionCoherent (m.focusOp (some w))) ∧
    (∀ (m : Monitor) (t : Nat),
      selectionCoherent m → selectionCoherent (m.viewOp t)) ∧
    (∀ (m : Monitor) (t : Nat),
      selectionCoherent m → selectionCoherent (m.toggleviewOp t)) ∧
    (∀ (m : Monitor) (t : Nat),
      selectionCoherent m → selectionCoherent (m.tagOp t)) ∧
    (∀ (m : Monitor) (t : Nat),
      selectionCoherent m → selectionCoherent (m.toggletagOp t)) ∧
    (∀ (m : Monitor) (c : Client), selectionCoherent (m.manageOnSelf c)) := by
  refine ⟨focusOp_none_coherent, ?_, viewOp_coherent, toggleviewOp_coherent,
    tagOp_coherent, toggletagOp_coherent, manageOnSelf_coherent⟩
  intro m w hw
  exact focusOp_coherent m (some w)
    (fun w' hw' => by injection hw' with h; subst h; exact hw)

/-- Witness for the amended C2 at concrete states. -/
theorem selection_visibility_amended_witness :
    selectionCoherent (mon6.focusOp (some 13)) ∧
    selectionCoherent (mon6.viewOp 2) :=
  ⟨selection_visibility_amended.2.1 mon6 13 (by decide),
   selection_visibility_amended.2.2.1 mon6 2 (by decide)⟩

/-- Masking twice is masking once. -/
theorem tagsMasked_and (t : Nat) (h : t &&& TAGMASK ≠ 0) :
    tagsMasked (t &&& TAGMASK) := by
  exact ⟨by rw [Nat.and_assoc, Nat.and_self], h⟩

/-- The XOR of two masked values is masked. -/
theorem tagsMasked_xor (a b : Nat) (ha : a &&& TAGMASK = a)
    (hb : b &&& TAGMASK = b) (hne : a ^^^ b ≠ 0) : tagsMasked (a ^^^ b) := by
  refine ⟨?_, hne⟩
  rw [Nat.and_xor_distrib_right, ha, hb]

/-- The active tag set of a monitor with the tag invariant is masked and
nonzero. -/
theorem getActiveTags_masked (m : Monitor) (hm : monTagInv m) :
    tagsMasked m.getActiveTags := by
  unfold Monitor.getActiveTags
  split
  · exact hm.2.2
  · exact hm.2.1

/-- `Monitor::focus` either settles on some window and runs the
promote-and-select tail, or clears the selection. -/
theorem focusOp_cases (m : Monitor) (r : Option Nat) :
    (∃ w, (w ∈ m.stack ∨ r = some w) ∧ m.focusOp r = m.focusApply w) ∨
    m.focusOp r = { m with selected := none } := by
  unfold Monitor.focusOp
  split
  · rename_i w heq
    refine .inl ⟨w, ?_, rfl⟩
    split at heq
    · cases hfind : m.stack.find? m.stackEntryVisible with
      | some s =>
        rw [hfind] at heq
        injection heq with hsw
        subst hsw
        exact .inl (List.mem_of_find?_eq_some hfind)
      | none =>
        rw [hfind] at heq
        exact .inr heq
    · exact .inr heq
  · exact .inr rfl

/-- The promote-and-select tail of `focus` preserves the tag invariant. -/
theorem focusApply_tagInv (m : Monitor) (w : Nat) (hm : monTagInv m) :
    monTagInv (m.focusApply w) := by
  refine ⟨?_, hm.2.1, hm.2.2⟩
  intro c' hc'
  obtain ⟨c, hc, rfl⟩ := List.mem_map.mp hc'
  rw [show (clearUrgentIf w c).tags = c.tags from (clearUrgentIf_win_tags w c).2]
  exact hm.1 c hc

/-- `focus` stores no tag value: it preserves the tag invariant. -/
theorem focusOp_tagInv (m : Monitor) (r : Option Nat) (hm : monTagInv m) :
    monTagInv (m.focusOp r) := by
  rcases focusOp_cases m r with ⟨w, _, hw⟩ | hw <;> rw [hw]
  · exact focusApply_tagInv m w hm
  · exact ⟨hm.1, hm.2.1, hm.2.2⟩

/-- Storing a masked nonzero tag value on one client preserves the tag
invariant. -/
theorem setClientTags_tagInv (m : Monitor) (w v : Nat) (hv : tagsMasked v)
    (hm : monTagInv m) : monTagInv (m.setClientTags w v) := by
  refine ⟨?_, hm.2.1, hm.2.2⟩
  intro c' hc'
  obtain ⟨c, hc, rfl⟩ := List.mem_map.mp hc'
  by_cases hw : (c.win == w) = true
  · simp only [hw, if_true]
    exact hv
  · simp only [hw, Bool.false_eq_true, if_false]
    exact hm.1 c hc

/-- Storing a masked nonzero value in the active tag slot preserves the tag
invariant. -/
theorem setActiveTags_tagInv (m : Monitor) (v : Nat) (hv : tagsMasked v)
    (hm : monTagInv m) : monTagInv (m.setActiveTags v) := by
  unfold Monitor.setActiveTags
  split
  · exact ⟨hm.1, hm.2.1, hv⟩
  · exact ⟨hm.1, hv, hm.2.2⟩

/-- Claim C8: every tag-mutating operation stores only masked, nonzero tag
bitmasks: `tag`, `toggletag`, `view`, `toggleview` on a monitor satisfying
the invariant preserve it; the rule-engine tag computation yields a masked
nonzero value whenever the fallback (the target monitor's active tag set)
is masked and nonzero — the accumulated rule mask is only transiently
unmasked before the final `fTags = fTags & TAGMASK ? … : …` store; and a
cross-monitor send stores the (masked, nonzero) active tag set of the
target. -/
theorem tag_masking_ok :
    (∀ (m : Monitor) (t : Nat), monTagInv m → monTagInv (m.tagOp t)) ∧
    (∀ (m : Monitor) (t : Nat), monTagInv m → monTagInv (m.toggletagOp t)) ∧
    (∀ (m : Monitor) (t : Nat), monTagInv m → monTagInv (m.toggleviewOp t)) ∧
    (∀ (m : Monitor) (t : Nat), monTagInv m → monTagInv (m.viewOp t)) ∧
    (∀ (ruleTagMasks : List Nat) (act : Nat), tagsMasked act →
      tagsMasked (applyCustomRulesTags ruleTagMasks act)) ∧
    (∀ (src tgt : Monitor) (w : Nat), monTagInv src → monTagInv tgt →
      monTagInv (sendClientToMonitor src tgt w).1 ∧
      monTagInv (sendClientToMonitor src tgt w).2) := by
  have hdetach : ∀ (m : Monitor) (w : Nat), monTagInv m → monTagInv (m.detach w) := by
    intro m w hm
    unfold Monitor.detach
    have hbase : monTagInv { m with
        clients := m.clients.eraseP (fun c => c.win == w),
        stack := m.stack.erase w } :=
      ⟨fun c hc => hm.1 c (List.mem_of_mem_eraseP hc), hm.2.1, hm.2.2⟩
    split
    · exact ⟨hbase.1, hbase.2.1, hbase.2.2⟩
    · exact hbase
  refine ⟨?_, ?_, ?_, ?_, ?_, ?_⟩
  · -- tag
    intro m t hm
    unfold Monitor.tagOp
    split
    · exact hm
    · split
      · exact focusOp_tagInv _ _ (setClientTags_tagInv m _ _ (tagsMasked_and t (by assumption)) hm)
      · exact hm
  · -- toggletag
    intro m t hm
    unfold Monitor.toggletagOp
    split
    · exact hm
    · rename_i cl hcl
      dsimp only
      split
      · rename_i hne
        have hclmem : cl ∈ m.clients := by
          cases hsel : m.selected with
          | none => rw [hsel] at hcl; cases hcl
          | some s =>
            rw [hsel] at hcl
            exact List.mem_of_find?_eq_some hcl
        have hmask : tagsMasked (cl.tags ^^^ (t &&& TAGMASK)) := by
          refine tagsMasked_xor _ _ ((hm.1 cl hclmem).1) ?_ hne
          rw [Nat.and_assoc, Nat.and_self]
        exact focusOp_tagInv _ _ (setClientTags_tagInv m _ _ hmask hm)
      · exact hm
  · -- toggleview
    intro m t hm
    unfold Monitor.toggleviewOp
    dsimp only
    split
    · rename_i hne
      have hmask : tagsMasked (m.getActiveTags ^^^ (t &&& TAGMASK)) := by
        refine tagsMasked_xor _ _ ((getActiveTags_masked m hm).1) ?_ hne
        rw [Nat.and_assoc, Nat.and_self]
      exact focusOp_tagInv _ _ (setActiveTags_tagInv m _ hmask hm)
    · exact hm
  · -- view
    intro m t hm
    unfold Monitor.viewOp
    have htoggle : monTagInv m.toggleSelectedTagSet := ⟨hm.1, hm.2.1, hm.2.2⟩
    split
    · exact hm
    · refine focusOp_tagInv _ _ ?_
      split
      · exact setActiveTags_tagInv _ _ (tagsMasked_and t (by assumption)) htoggle
      · exact htoggle
  · -- rule engine fallback
    intro ruleTagMasks act hact
    unfold applyCustomRulesTags
    dsimp only
    split
    · exact tagsMasked_and _ (by assumption)
    · exact hact
  · -- cross-monitor send
    intro src tgt w hsrc htgt
    unfold sendClientToMonitor
    split
    · exact ⟨hsrc, htgt⟩
    · cases hf : src.findClient w with
      | none => exact ⟨hsrc, htgt⟩
      | some cl =>
        refine ⟨hdetach src w hsrc, ?_⟩
        have hclmem : cl ∈ src.clients := List.mem_of_find?_eq_some hf
        have hattach : monTagInv (tgt.attach cl) := by
          refine ⟨?_, htgt.2.1, htgt.2.2⟩
          intro c hc
          rcases List.mem_cons.mp hc with rfl | hc'
          · exact hsrc.1 cl hclmem
          · exact htgt.1 c hc'
        refine setClientTags_tagInv _ _ _ ?_ hattach
        have : (tgt.attach cl).getActiveTags = tgt.getActiveTags := rfl
        rw [this]
        exact getActiveTags_masked tgt htgt

/-- Witness for C8 at concrete states: a `tag`, a `view` and a rule-engine
fallback all store masked, nonzero bitmasks. -/
theorem tag_masking_witness :
    monTagInv (mon6.tagOp 4) ∧ monTagInv (mon6.viewOp 2) ∧
    tagsMasked (applyCustomRulesTags [0] 1) :=
  ⟨tag_masking_ok.1 mon6 4 (by decide),
   tag_masking_ok.2.2.2.1 mon6 2 (by decide),
   tag_masking_ok.2.2.2.2.1 [0] 1 (by decide)⟩

/-- On a hint-free client whose requested rectangle already fits the usable
area and clears the bar-height floor, the non-interactive resize geometry
computation is the identity. -/
theorem resizeTarget_exact (c : Client) (ctx : XCtx) (wr : Rect)
    (x y w h : Int) (hh : c.hints = {})
    (hw1 : 1 ≤ w) (hh1 : 1 ≤ h) (hbw : ctx.barHeight ≤ w) (hbh : ctx.barHeight ≤ h)
    (hx1 : x < wr.x + wr.width) (hx2 : wr.x < x + w + 2 * c.bw)
    (hy1 : y < wr.y + wr.height) (hy2 : wr.y < y + h + 2 * c.bw) :
    c.resizeTarget ctx wr x y w h false = ⟨x, y, w, h⟩ := by
  unfold Client.resizeTarget
  rw [hh]
  simp only [Bool.false_eq_true, if_false,
    max_eq_right hw1, max_eq_right hh1,
    if_neg (not_le.mpr hx1), if_neg (not_le.mpr hy1)]
  rw [if_neg (not_le.mpr hx2), if_neg (not_le.mpr hy2)]
  simp only [max_eq_left hbw, max_eq_left hbh]
  show Rect.mk x y _ _ = _
  have hfr : (Frac.isPos ⟨0, 1⟩) = false := by decide
  norm_num [hfr]
  constructor <;> omega

/-- The installed size of a resized client is always the computed target
rectangle (when the target equals the current geometry the configure call
is skipped, but the size is then already the target). -/
theorem Client.resize_size (c : Client) (ctx : XCtx) (wr : Rect)
    (x y w h : Int) (interact : Bool) :
    (c.resize ctx wr x y w h interact).size =
      c.resizeTarget ctx wr x y w h interact := by
  unfold Client.resize Client.resizeXClient
  dsimp only
  split
  · rfl
  · rename_i hcond
    push_neg at hcond
    obtain ⟨h1, h2, h3, h4⟩ := hcond
    show c.size = _
    have : c.size = ⟨c.size.x, c.size.y, c.size.width, c.size.height⟩ := rfl
    rw [this, ← h1, ← h2, ← h3, ← h4]

/-- Mapping a window-preserving function over the clients leaves the window
list unchanged. -/
theorem map_win_of_preserve (f : Client → Client)
    (hf : ∀ c, (f c).win = c.win) (l : List Client) :
    (l.map f).map Client.win = l.map Client.win := by
  induction l with
  | nil => rfl
  | cons c rest ih => simp [hf c, ih]

/-- Erasing the client with window `w` erases `w` from the window list. -/
theorem map_win_eraseP (l : List Client) (w : Nat) :
    (l.eraseP (fun c => c.win == w)).map Client.win =
      (l.map Client.win).erase w := by
  induction l with
  | nil => rfl
  | cons c rest ih =>
    by_cases hw : (c.win == w) = true
    · simp [List.eraseP_cons, List.erase_cons, hw]
    · rw [Bool.not_eq_true] at hw
      simp [List.eraseP_cons, List.erase_cons, hw, ih]

/-- The promote-and-select tail of `focus` permutes the stack, given that
the promoted window is a stack member. -/
theorem focusApply_perm (m : Monitor) (w : Nat) (hw : w ∈ m.stack)
    (hm : stackPerm m) : stackPerm (m.focusApply w) := by
  show (w :: m.stack.erase w).Perm ((m.clients.map (clearUrgentIf w)).map Client.win)
  rw [map_win_of_preserve _ (fun c => (clearUrgentIf_win_tags w c).1)]
  exact ((List.perm_cons_erase hw).symm).trans hm

/-- `focus` permutes the stack whenever its explicit argument (if any) is a
stack member. -/
theorem focusOp_perm (m : Monitor) (r : Option Nat)
    (hr : ∀ w, r = some w → w ∈ m.stack) (hm : stackPerm m) :
    stackPerm (m.focusOp r) := by
  rcases focusOp_cases m r with ⟨w, hsrc, hw⟩ | hw <;> rw [hw]
  · refine focusApply_perm m w ?_ hm
    rcases hsrc with h | h
    · exact h
    · exact hr w h
  · exact hm

/-- `detach` removes the same window from both collections, preserving the
permutation. -/
theorem detach_perm (m : Monitor) (w : Nat) (hm : stackPerm m) :
    stackPerm (m.detach w) := by
  have hbase : (m.stack.erase w).Perm
      ((m.clients.eraseP (fun c => c.win == w)).map Client.win) := by
    rw [map_win_eraseP]
    exact hm.erase w
  unfold Monitor.detach
  split
  · exact hbase
  · exact hbase

/-- `attach` prepends the same window to both collections. -/
theorem attach_perm (m : Monitor) (c : Client) (hm : stackPerm m) :
    stackPerm (m.attach c) := by
  show (c.win :: m.stack).Perm _
  exact hm.cons c.win

/-- `transferAllClients` concatenates permutation-coupled collections. -/
theorem transferAllClients_perm (src tgt : Monitor)
    (hs : stackPerm src) (ht : stackPerm tgt) :
    stackPerm (Monitor.transferAllClients src tgt).1 ∧
    stackPerm (Monitor.transferAllClients src tgt).2 := by
  constructor
  · exact List.Perm.refl _
  · show (tgt.stack ++ src.stack).Perm ((tgt.clients ++ src.clients).map Client.win)
    rw [List.map_append]
    exact ht.append hs

/-- `unmanage` (detach + refocus) preserves the permutation. -/
theorem unmanage_perm (m : Monitor) (w : Nat) (hm : stackPerm m) :
    stackPerm (m.unmanage w) :=
  focusOp_perm _ none (fun _ h => by cases h) (detach_perm m w hm)

/-- `zoom` only moves an existing client to the front of the client
collection and refocuses it: the permutation survives. -/
theorem zoom_perm (m : Monitor) (w : Nat) (hm : stackPerm m) :
    stackPerm (m.zoomClientToMaster w) := by
  unfold Monitor.zoomClientToMaster
  split
  · exact hm
  · rename_i cl hcl
    split
    · exact hm
    · split
      · exact hm
      · rename_i t hteq
        have htmem : t ∈ m.clients := by
          split at hteq
          · have hsub := (List.dropWhile_sublist
              (fun c : Client => c.win != w) (l := m.tiledClients)).subset
            have : t ∈ m.tiledClients.dropWhile (fun c => c.win != w) :=
              List.mem_of_mem_head? (by rw [Option.mem_def]; exact hteq)
            exact List.mem_of_mem_filter (hsub this)
          · injection hteq with h
            subst h
            exact List.mem_of_find?_eq_some hcl
        have hshuffle : stackPerm { m with
            clients := t :: m.clients.eraseP (fun c => c.win == t.win) } := by
          show m.stack.Perm _
          rw [List.map_cons, map_win_eraseP]
          refine hm.trans (List.perm_cons_erase ?_)
          exact List.mem_map_of_mem Client.win htmem
        refine focusOp_perm _ (some t.win) ?_ hshuffle
        intro w' hw'
        injection hw' with h
        subst h
        show t.win ∈ m.stack
        exact hm.mem_iff.mpr (List.mem_map_of_mem Client.win htmem)

/-- `setClientTags` rewrites one client's tags in place: the window list and
the stack are untouched. -/
theorem setClientTags_perm (m : Monitor) (w t : Nat) (hm : stackPerm m) :
    stackPerm (m.setClientTags w t) := by
  have hcl : (m.setClientTags w t).clients =
      m.clients.map (fun c => if c.win == w then { c with tags := t } else c) := rfl
  unfold stackPerm
  rw [hcl, map_win_of_preserve]
  · exact hm
  · intro c
    dsimp only
    split <;> rfl

/-- `sendClientToMonitor` detaches from the source and attaches to the
target: both permutations survive. -/
theorem sendClientToMonitor_perm (src tgt : Monitor) (w : Nat)
    (hs : stackPerm src) (ht : stackPerm tgt) :
    stackPerm (sendClientToMonitor src tgt w).1 ∧
    stackPerm (sendClientToMonitor src tgt w).2 := by
  unfold sendClientToMonitor
  split
  · exact ⟨hs, ht⟩
  · split
    · exact ⟨hs, ht⟩
    · rename_i cl hcl
      exact ⟨detach_perm src w hs,
        setClientTags_perm _ w _ (attach_perm tgt cl ht)⟩

/-- Managing a new client (attach + select + refocus) preserves the
permutation. -/
theorem manage_perm (m : Monitor) (c : Client) (hm : stackPerm m) :
    stackPerm (m.manageOnSelf c) := by
  unfold Monitor.manageOnSelf
  refine focusOp_perm _ none (fun _ h => by cases h) ?_
  exact attach_perm m c hm

/-- Claim C1: after attach, detach, focus, zoom, unmanage, cross-monitor
send, manage and whole-monitor client transfer, the stack collection remains
a permutation of the client collection (same members, independent order). -/
theorem stack_clients_permutation :
    (∀ (m : Monitor) (c : Client), stackPerm m → stackPerm (m.attach c)) ∧
    (∀ (m : Monitor) (w : Nat), stackPerm m → stackPerm (m.detach w)) ∧
    (∀ (m : Monitor) (r : Option Nat), stackPerm m →
      (∀ w, r = some w → w ∈ m.stack) → stackPerm (m.focusOp r)) ∧
    (∀ (m : Monitor) (w : Nat), stackPerm m → stackPerm (m.zoomClientToMaster w)) ∧
    (∀ (m : Monitor) (w : Nat), stackPerm m → stackPerm (m.unmanage w)) ∧
    (∀ (src tgt : Monitor), stackPerm src → stackPerm tgt →
      stackPerm (Monitor.transferAllClients src tgt).1 ∧
      stackPerm (Monitor.transferAllClients src tgt).2) ∧
    (∀ (src tgt : Monitor) (w : Nat), stackPerm src → stackPerm tgt →
      stackPerm (sendClientToMonitor src tgt w).1 ∧
      stackPerm (sendClientToMonitor src tgt w).2) ∧
    (∀ (m : Monitor) (c : Client), stackPerm m → stackPerm (m.manageOnSelf c)) :=
  ⟨attach_perm, detach_perm,
   fun m r hm hr => focusOp_perm m r hr hm,
   zoom_perm, unmanage_perm, transferAllClients_perm,
   sendClientToMonitor_perm, manage_perm⟩

/-- Witness for C1 at concrete states. -/
theorem stack_clients_permutation_witness :
    stackPerm (mon6.attach (mkTiledClient 14 1)) ∧
    stackPerm (mon6.detach 11) ∧
    stackPerm (mon6.zoomClientToMaster 13) :=
  ⟨stack_clients_permutation.1 mon6 (mkTiledClient 14 1) (by decide),
   stack_clients_permutation.2.1 mon6 11 (by decide),
   stack_clients_permutation.2.2.2.1 mon6 13 (by decide)⟩

/-- The tile loop emits exactly one placement per tiled client. -/
theorem tileLoop_length (wr : Rect) (gap mw nm n : Int) (ctx : XCtx) :
    ∀ (cs : List Client) (i : Nat) (my ty : Int),
    (tileLoop wr gap mw nm n ctx i my ty cs).length = cs.length := by
  intro cs
  induction cs with
  | nil => intro i my ty; rfl
  | cons c rest ih =>
    intro i my ty
    simp only [tileLoop]
    split <;> simp [ih]

/-- The tile loop indexes placements consecutively from its start index. -/
theorem tileLoop_idx (wr : Rect) (gap mw nm n : Int) (ctx : XCtx) :
    ∀ (cs : List Client) (i : Nat) (my ty : Int),
    (tileLoop wr gap mw nm n ctx i my ty cs).map (fun p => p.idx) =
      List.range' i cs.length := by
  intro cs
  induction cs with
  | nil => intro i my ty; rfl
  | cons c rest ih =>
    intro i my ty
    simp only [tileLoop]
    split <;> simp [ih, List.range'_succ]

/-- The tile loop visits the tiled clients in order (window handles line
up). -/
theorem tileLoop_win (wr : Rect) (gap mw nm n : Int) (ctx : XCtx) :
    ∀ (cs : List Client) (i : Nat) (my ty : Int),
    (tileLoop wr gap mw nm n ctx i my ty cs).map (fun p => p.after.win) =
      cs.map (fun c => c.win) := by
  intro cs
  induction cs with
  | nil => intro i my ty; rfl
  | cons c rest ih =>
    intro i my ty
    simp only [tileLoop]
    split <;> simp [ih, Client.resize_win]

/-- Each placement of the tile loop is internally consistent: the branch
taken is `idx < masterCount`; the slot height is
`(usableHeight − offset) / remaining − gap` with `remaining` counted within
the proper column; the x (and y) coordinates passed to `resize` are the
column positions. -/
theorem tileLoop_mem_spec (wr : Rect) (gap mw nm n : Int) (ctx : XCtx) :
    ∀ (cs : List Client) (i : Nat) (my ty : Int),
    ∀ p ∈ tileLoop wr gap mw nm n ctx i my ty cs,
      p.isMaster = decide ((p.idx : Int) < nm) ∧
      p.slotH = Int.tdiv (wr.height - p.offBefore)
        ((if p.isMaster then min n nm else n) - (p.idx : Int)) - gap ∧
      p.req.x = (if p.isMaster then wr.x + gap else wr.x + mw + gap) ∧
      p.req.y = wr.y + p.offBefore := by
  intro cs
  induction cs with
  | nil => intro i my ty p hp; cases hp
  | cons c rest ih =>
    intro i my ty p hp
    simp only [tileLoop] at hp
    split at hp
    · rename_i him
      rcases List.mem_cons.mp hp with rfl | hp'
      · refine ⟨by simp [him], by simp, by simp, by simp⟩
      · exact ih (i + 1) _ ty p hp'
    · rename_i him
      rcases List.mem_cons.mp hp with rfl | hp'
      · refine ⟨by simp [him], by simp, by simp, by simp⟩
      · exact ih (i + 1) my _ p hp'

/-- The tile loop places `min (remaining clients) (remaining master slots)`
clients in the master column. -/
theorem tileLoop_countP (wr : Rect) (gap mw nm n : Int) (ctx : XCtx) :
    ∀ (cs : List Client) (i : Nat) (my ty : Int),
    (tileLoop wr gap mw nm n ctx i my ty cs).countP (fun p => p.isMaster) =
      min cs.length (nm - (i : Int)).toNat := by
  intro cs
  induction cs with
  | nil => intro i my ty; simp [tileLoop]
  | cons c rest ih =>
    intro i my ty
    simp only [tileLoop]
    split
    · rename_i him
      simp [List.countP_cons, ih]
      omega
    · rename_i him
      simp [List.countP_cons, ih]
      omega

/-- The head placement of the tile loop reads the incoming offset of its
column. -/
theorem tileLoop_head_off (wr : Rect) (gap mw nm n : Int) (ctx : XCtx)
    (cs : List Client) (i : Nat) (my ty : Int) :
    ∀ p ∈ (tileLoop wr gap mw nm n ctx i my ty cs).head?,
      p.offBefore = (if p.isMaster then my else ty) ∧
      p.isMaster = decide ((i : Int) < nm) := by
  cases cs with
  | nil => intro p hp; cases hp
  | cons c rest =>
    intro p hp
    simp only [tileLoop] at hp
    split at hp
    · rename_i him
      rw [Option.mem_def] at hp
      simp only [List.head?_cons, Option.some.injEq] at hp
      subst hp
      exact ⟨rfl, by simp [him]⟩
    · rename_i him
      rw [Option.mem_def] at hp
      simp only [List.head?_cons, Option.some.injEq] at hp
      subst hp
      exact ⟨rfl, by simp [him]⟩

/-- The running offsets obey the per-step recurrence: same-column steps
advance by the placed outer height plus a gap unless that overflows, and the
master→stack transition starts from the untouched initial offset. -/
theorem tileLoop_chain (wr : Rect) (gap mw nm n : Int) (ctx : XCtx) :
    ∀ (cs : List Client) (i : Nat) (my ty : Int),
    ((i : Int) < nm → ty = gap) →
    List.Chain' (tileOffsetStep wr gap)
      (tileLoop wr gap mw nm n ctx i my ty cs) := by
  intro cs
  induction cs with
  | nil => intro i my ty hty; simp [tileLoop]
  | cons c rest ih =>
    intro i my ty hty
    simp only [tileLoop]
    split
    · rename_i him
      rw [List.chain'_cons']
      refine ⟨?_, ih (i + 1) _ ty (fun _ => hty him)⟩
      intro q hq
      obtain ⟨hqoff, _⟩ := tileLoop_head_off wr gap mw nm n ctx rest (i + 1) _ ty q hq
      unfold tileOffsetStep
      by_cases hq2 : q.isMaster = true
      · rw [hqoff, hq2]
        simp
      · rw [Bool.not_eq_true] at hq2
        rw [hqoff, hq2]
        simp [hty him]
    · rename_i him
      rw [List.chain'_cons']
      have hnext : ¬((i : Int) + 1 < nm) := by omega
      refine ⟨?_, ih (i + 1) my _ (fun h => absurd (by exact_mod_cast h) hnext)⟩
      intro q hq
      obtain ⟨hqoff, hqm⟩ := tileLoop_head_off wr gap mw nm n ctx rest (i + 1) my _ q hq
      unfold tileOffsetStep
      have hqm' : q.isMaster = false := by
        rw [hqm]
        simpa using hnext
      rw [hqoff, hqm']
      simp

/-- Amended claim C4: for the tile layout, one placement is emitted per
tiled client, in client-collection insertion order; the placements indexed
`0, 1, …` run through the master branch exactly while `idx < masterCount`,
so exactly `min n masterCount` land in the master column and the rest in
the stack column; the master column starts at `x = wRect.x + gap` and the
stack column at `x = wRect.x + mw + gap`; each step's slot height is
`(usableHeight − runningOffset) / remainingColumnCount − gap`; both running
offsets start at `gap` and advance by the placed client's outer height plus
one gap exactly when that does not overflow the usable height.  The master
column width is `mw = trunc(usableWidth · masterFactor)` when
`n > masterCount > 0`, `mw = 0` when `masterCount = 0 < n` (not
`usableWidth − gap` as the unamended claim said), and
`mw = usableWidth − gap` when `n ≤ masterCount`.  With no tiled client,
tile is a no-op. -/
theorem tile_amended (m : Monitor) (ctx : XCtx) :
    (m.tiledClients.length = 0 → m.tile ctx = m) ∧
    (m.tilePlacements ctx).length = m.tiledClients.length ∧
    (m.tilePlacements ctx).map (fun p => p.idx) =
      List.range' 0 m.tiledClients.length ∧
    (m.tilePlacements ctx).map (fun p => p.after.win) =
      m.tiledClients.map (fun c => c.win) ∧
    (m.tilePlacements ctx).countP (fun p => p.isMaster) =
      min m.tiledClients.length m.nmaster.toNat ∧
    (∀ p ∈ m.tilePlacements ctx,
      p.isMaster = decide ((p.idx : Int) < m.nmaster) ∧
      p.slotH = Int.tdiv (m.wRect.height - p.offBefore)
        ((if p.isMaster then min (m.tiledClients.length : Int) m.nmaster
          else (m.tiledClients.length : Int)) - (p.idx : Int)) - m.gap ∧
      p.req.x = (if p.isMaster then m.wRect.x + m.gap
        else m.wRect.x + m.tileMasterWidth (m.tiledClients.length : Int) + m.gap) ∧
      p.req.y = m.wRect.y + p.offBefore) ∧
    (∀ p ∈ (m.tilePlacements ctx).head?, p.offBefore = m.gap) ∧
    List.Chain' (tileOffsetStep m.wRect m.gap) (m.tilePlacements ctx) ∧
    ((m.tiledClients.length : Int) > m.nmaster → m.nmaster ≠ 0 →
      m.tileMasterWidth (m.tiledClients.length : Int) =
        m.mfact.mulTrunc m.wRect.width) ∧
    ((m.tiledClients.length : Int) > m.nmaster → m.nmaster = 0 →
      m.tileMasterWidth (m.tiledClients.length : Int) = 0) ∧
    (¬((m.tiledClients.length : Int) > m.nmaster) →
      m.tileMasterWidth (m.tiledClients.length : Int) =
        m.wRect.width - m.gap) := by
  refine ⟨?_,
    tileLoop_length _ _ _ _ _ _ m.tiledClients 0 m.gap m.gap,
    tileLoop_idx _ _ _ _ _ _ m.tiledClients 0 m.gap m.gap,
    tileLoop_win _ _ _ _ _ _ m.tiledClients 0 m.gap m.gap, ?_,
    tileLoop_mem_spec _ _ _ _ _ _ m.tiledClients 0 m.gap m.gap, ?_,
    tileLoop_chain _ _ _ _ _ _ m.tiledClients 0 m.gap m.gap (fun _ => rfl),
    ?_, ?_, ?_⟩
  · intro h
    unfold Monitor.tile
    rw [if_pos h]
  · have := tileLoop_countP m.wRect m.gap
      (m.tileMasterWidth (m.tiledClients.length : Int)) m.nmaster
      (m.tiledClients.length : Int) ctx m.tiledClients 0 m.gap m.gap
    simpa using this
  · intro p hp
    obtain ⟨hoff, _⟩ := tileLoop_head_off m.wRect m.gap
      (m.tileMasterWidth (m.tiledClients.length : Int)) m.nmaster
      (m.tiledClients.length : Int) ctx m.tiledClients 0 m.gap m.gap p hp
    rw [hoff, ite_self]
  · intro hgt hne
    unfold Monitor.tileMasterWidth
    rw [if_pos hgt, if_pos hne]
  · intro hgt heq
    unfold Monitor.tileMasterWidth
    rw [if_pos hgt, if_neg (by simp [heq])]
  · intro hle
    unfold Monitor.tileMasterWidth
    rw [if_neg hle]

/-- Witness for the amended C4 on `mon6` (two tiled visible clients,
`masterCount = 1`). -/
theorem tile_amended_witness :
    (mon6.tilePlacements ctx0).countP (fun p => p.isMaster) =
      min mon6.tiledClients.length mon6.nmaster.toNat ∧
    mon6.tileMasterWidth (mon6.tiledClients.length : Int) =
      mon6.mfact.mulTrunc mon6.wRect.width :=
  ⟨(tile_amended mon6 ctx0).2.2.2.2.1,
   (tile_amended mon6 ctx0).2.2.2.2.2.2.2.2.1 (by decide) (by decide)⟩

/-- Amended claim C5: monocle resizes each tiled (non-floating, visible)
client toward the usable rectangle shrunk by twice its own border width
(exactly so for hint-free clients that clear the bar-height floor), and the
cached layout symbol is overwritten with the count of *visible* clients —
floating ones included — whenever at least one client (tiled or not) is
visible; with no visible client the symbol is untouched. -/
theorem monocle_amended :
    (∀ (m : Monitor) (ctx : XCtx),
      0 < (m.clients.filter (fun c => m.visibleB c)).length →
      (m.monocle ctx).layoutSymbol =
        "[" ++ toString (m.clients.filter (fun c => m.visibleB c)).length ++ "]") ∧
    (∀ (m : Monitor) (ctx : XCtx),
      (m.clients.filter (fun c => m.visibleB c)).length = 0 →
      (m.monocle ctx).layoutSymbol = m.layoutSymbol) ∧
    (∀ (m : Monitor) (ctx : XCtx),
      (m.monocle ctx).clients = m.clients.map (m.monocleResizeOne ctx)) ∧
    (∀ (m : Monitor) (ctx : XCtx) (c : Client),
      (!c.flags.isFloating && m.visibleB c) = true →
      c.hints = {} → 0 ≤ c.bw →
      1 ≤ m.wRect.width - 2 * c.bw → 1 ≤ m.wRect.height - 2 * c.bw →
      ctx.barHeight ≤ m.wRect.width - 2 * c.bw →
      ctx.barHeight ≤ m.wRect.height - 2 * c.bw →
      (m.monocleResizeOne ctx c).size =
        ⟨m.wRect.x, m.wRect.y, m.wRect.width - 2 * c.bw,
         m.wRect.height - 2 * c.bw⟩) := by
  refine ⟨?_, ?_, ?_, ?_⟩
  · intro m ctx hn
    show (if 0 < (m.clients.filter (fun c => m.visibleB c)).length then _ else _) = _
    rw [if_pos hn]
  · intro m ctx hn
    show (if 0 < (m.clients.filter (fun c => m.visibleB c)).length then _ else _) = _
    rw [hn]
    rfl
  · intro m ctx
    rfl
  · intro m ctx c htiled hh hbw0 hw1 hh1 hbw hbh
    unfold Monitor.monocleResizeOne
    rw [if_pos htiled, Client.resize_size]
    exact resizeTarget_exact c ctx m.wRect _ _ _ _ hh hw1 hh1 hbw hbh
      (by omega) (by omega) (by omega) (by omega)

/-- Witness for the amended C5: on `mon5` (one floating visible client) the
symbol becomes "[1]"; a concrete hint-free tiled client is resized exactly
to the shrunk usable rectangle. -/
theorem monocle_amended_witness :
    (mon5.monocle ctx0).layoutSymbol =
      "[" ++ toString (mon5.clients.filter (fun c => mon5.visibleB c)).length ++ "]" ∧
    (baseMon.monocleResizeOne ctx0 (mkTiledClient 3 1)).size =
      ⟨baseMon.wRect.x, baseMon.wRect.y, baseMon.wRect.width - 2 * 1,
       baseMon.wRect.height - 2 * 1⟩ :=
  ⟨monocle_amended.1 mon5 ctx0 (by decide),
   monocle_amended.2.2.2 baseMon ctx0 (mkTiledClient 3 1) (by decide) (by decide)
     (by decide) (by decide) (by decide) (by decide) (by decide)⟩

/-- `dropWhile` stops exactly at the first element the predicate rejects. -/
theorem dropWhile_append_of_all (p : Client → Bool) (l1 l2 : List Client)
    (x : Client) (h1 : ∀ a ∈ l1, p a = true) (hx : p x = false) :
    (l1 ++ x :: l2).dropWhile p = x :: l2 := by
  induction l1 with
  | nil => simp [List.dropWhile_cons, hx]
  | cons a rest ih =>
    have ha := h1 a (List.mem_cons_self a rest)
    simp only [List.cons_append, List.dropWhile_cons, ha, if_true]
    exact ih (fun b hb => h1 b (List.mem_cons_of_mem a hb))

/-- With pairwise-distinct window handles, searching a list for a member's
own window finds that member. -/
theorem find?_win_self (l : List Client) (c : Client)
    (hnd : (l.map Client.win).Nodup) (hc : c ∈ l) :
    l.find? (fun d => d.win == c.win) = some c := by
  induction l with
  | nil => cases hc
  | cons d rest ih =>
    rw [List.map_cons, List.nodup_cons] at hnd
    rcases List.mem_cons.mp hc with rfl | hc'
    · simp [List.find?_cons]
    · have hdw : (d.win == c.win) = false := by
        rw [beq_eq_false_iff_ne]
        intro hEq
        exact hnd.1 (hEq ▸ List.mem_map_of_mem Client.win hc')
      simp only [List.find?_cons, hdw, Bool.false_eq_true, if_false]
      exact ih hnd.2 hc'

/-- With pairwise-distinct window handles, resolving a client's own window
finds that client. -/
theorem findClient_self (m : Monitor) (c : Client)
    (hnd : (m.clients.map Client.win).Nodup) (hc : c ∈ m.clients) :
    m.findClient c.win = some c := by
  unfold Monitor.findClient
  exact find?_win_self m.clients c hnd hc

/-- `focus(c)` on a client that resolves visibly selects exactly `c`. -/
theorem focusOp_selected_of_visible (m : Monitor) (w : Nat) (c : Client)
    (hc : m.findClient w = some c) (hv : m.visibleB c = true) :
    (m.focusOp (some w)).selected = some w := by
  unfold Monitor.focusOp
  have hcond : ((some w : Option Nat).isNone
      || !(((some w : Option Nat).bind m.findClient).map m.visibleB).getD false)
      = false := by
    show (false || !((m.findClient w).map m.visibleB).getD false) = false
    rw [hc]
    simp [hv]
  rw [hcond]
  simp only [Bool.false_eq_true, if_false]
  rfl

/-- Claim C6: with a non-null, non-fullscreen selection sitting at some
position of the client collection (decomposed as `pre ++ cSel :: post` with
no earlier client sharing the selected window), `focusstack(+1)` selects the
first visible client of `post` (the next visible client strictly after the
selection); if none follows it wraps to the first visible client of the
whole collection; if there is none at all the state is unchanged.  The
operation is also a no-op when nothing is selected.  On the concrete
4-client state `mon6` (only indices 0 and 3 visible, index 0 selected) the
new selection is the client at index 3 (window 13). -/
theorem focusstack_forward_ok :
    (∀ (m : Monitor) (d : Int), m.selected = none →
      m.shiftFocusThroughStack d = m) ∧
    (∀ (m : Monitor) (pre post : List Client) (cSel : Client),
      m.clients = pre ++ cSel :: post →
      (m.clients.map Client.win).Nodup →
      m.selected = some cSel.win →
      cSel.flags.isFullscreen = false →
      (match post.find? m.visibleB with
       | some c => (m.shiftFocusThroughStack 1).selected = some c.win
       | none =>
         match m.clients.find? m.visibleB with
         | some c => (m.shiftFocusThroughStack 1).selected = some c.win
         | none => m.shiftFocusThroughStack 1 = m)) ∧
    (mon6.shiftFocusThroughStack 1).selected = some 13 := by
  refine ⟨?_, ?_, by decide⟩
  · intro m d hsel
    unfold Monitor.shiftFocusThroughStack
    rw [hsel]
  · intro m pre post cSel hsplit hnd hsel hnf
    have hcSel : cSel ∈ m.clients := by
      rw [hsplit]; exact List.mem_append_right pre (List.mem_cons_self cSel post)
    have hfind : m.findClient cSel.win = some cSel := findClient_self m cSel hnd hcSel
    have hdrop : m.clients.dropWhile (fun c => c.win != cSel.win) = cSel :: post := by
      rw [hsplit]
      refine dropWhile_append_of_all _ pre post cSel ?_ (by simp)
      intro a ha
      have haw : a.win ≠ cSel.win := by
        intro hEq
        have hnd' := hsplit ▸ hnd
        rw [List.map_append, List.nodup_append] at hnd'
        exact hnd'.2.2 (hEq ▸ List.mem_map_of_mem Client.win ha)
          (List.mem_map_of_mem Client.win (List.mem_cons_self cSel post))
      simpa using haw
    have hguard : ((m.findClient cSel.win).map
        (fun c => c.flags.isFullscreen)).getD false = false := by
      rw [hfind]; simpa using hnf
    have hshift : m.shiftFocusThroughStack 1 =
        (match (match post.find? m.visibleB with
                | some c => some c
                | none => m.clients.find? m.visibleB) with
         | some c => m.focusOp (some c.win)
         | none => m) := by
      unfold Monitor.shiftFocusThroughStack
      rw [hsel]
      dsimp only
      rw [hguard]
      simp only [Bool.false_eq_true, if_false,
        eq_true (show (1:Int) > 0 by norm_num), if_true, hdrop,
        List.drop_succ_cons, List.drop_zero]
    rw [hshift]
    cases hpost : post.find? m.visibleB with
    | some c =>
      simp only
      have hcmem : c ∈ m.clients := by
        rw [hsplit]
        exact List.mem_append_right pre
          (List.mem_cons_of_mem cSel (List.mem_of_find?_eq_some hpost))
      exact focusOp_selected_of_visible m c.win c
        (findClient_self m c hnd hcmem) (List.find?_some hpost)
    | none =>
      simp only
      cases hall : m.clients.find? m.visibleB with
      | some c =>
        simp only
        have hcmem : c ∈ m.clients := List.mem_of_find?_eq_some hall
        exact focusOp_selected_of_visible m c.win c
          (findClient_self m c hnd hcmem) (List.find?_some hall)
      | none => rfl

/-- Witness for C6: `focusstack(+1)` on `mon6` decomposed around its
selected head client. -/
theorem focusstack_forward_witness :
    (match ([mkTiledClient 11 2, mkTiledClient 12 2,
             mkTiledClient 13 1].find? mon6.visibleB) with
     | some c => (mon6.shiftFocusThroughStack 1).selected = some c.win
     | none =>
       match mon6.clients.find? mon6.visibleB with
       | some c => (mon6.shiftFocusThroughStack 1).selected = some c.win
       | none => mon6.shiftFocusThroughStack 1 = mon6) :=
  focusstack_forward_ok.2.1 mon6 [] [mkTiledClient 11 2, mkTiledClient 12 2,
    mkTiledClient 13 1] (mkTiledClient 10 1) (by decide) (by decide)
    (by decide) (by decide)

end DwmCpp
